import Mathlib

/-!
# Strategy_PowerN (src/main/strategy_powern.cpp)

A shallow embedding of the pivot-curve strategy engine.

* `double` is modelled by an arbitrary linearly ordered field `α` (ℚ for
  evaluation, ℝ for the analytic statements); rounding and NaN arithmetic are
  not modelled.
* `std::pow` is a parameter `pow : α → α → α` of the closed-form curve
  functions; the analytic theorems instantiate it with `Real.rpow`.
* What the translation unit takes from headers that are outside `src/`
  (`numerical.h`, `strategy_powern.h`, `istrategy.h`, `istockapi.h`, imtjson)
  is either a field of `Env` / `MarketInfo` or a definition whose doc comment
  says that it is modelled from the specification.
* A thrown `std::runtime_error` is `Except.error`.
-/

namespace PowerN

/-! ## Data model -/

/-- Modelled from the spec: `Strategy_PowerN::Config` is declared in
`strategy_powern.h`, which is not part of the sources; the fields are the ones
the specification lists (width `w`, curvature `p`, scale `c`, the two yield
multipliers and the initial budget). -/
structure Config (α : Type) where
  w : α
  p : α
  c : α
  yield_mult : α
  initial_yield_mult : α
  initial_budget : α
deriving DecidableEq

/-- `Strategy_PowerN::State`, in the order of the aggregate initialiser of
`importState`: `{_val, _k, _p, _pos}`. -/
structure State (α : Type) where
  val : α
  k : α
  p : α
  pos : α
deriving DecidableEq

/-- `Strategy_PowerN::RuleResult`, in the order of the `return` of
`find_k_rule`: `{k, val, pos}`. -/
structure RuleResult (α : Type) where
  k : α
  val : α
  pos : α
deriving DecidableEq

/-- An engine value: the members `_cfg` and `_state` of `Strategy_PowerN`. -/
structure Strategy (α : Type) where
  cfg : Config α
  state : State α
deriving DecidableEq

/-- What `strategy_powern.cpp` calls but does not define.

* `pow`, `sqrt`: `std::pow`, `std::sqrt`;
* `find_root_pos guess hint f`: `Numerics<>::find_root_pos` of `numerical.h`;
  `none` is its failure sentinel (NaN);
* `find_price_from_pos cfg k pos`: the inverse position-to-price helper of
  `strategy_powern.h`. -/
structure Env (α : Type) where
  pow : α → α → α
  sqrt : α → α
  find_root_pos : α → α → (α → α) → Option α
  find_price_from_pos : Config α → α → α → α

/-- The part of `IStockApi::MarketInfo` the engine reads: `calcMinSize`. -/
structure MarketInfo (α : Type) where
  calcMinSize : α → α

/-- The part of `IStockApi::Ticker` the engine reads: `last`. -/
structure Ticker (α : Type) where
  last : α

/-- `IStrategy::OnTradeResult` as the specification names its four slots:
`{realizedPnl, fee, newPivot, extra}`. -/
structure OnTradeResult (α : Type) where
  realizedPnl : α
  fee : α
  newPivot : α
  extra : α
deriving DecidableEq

/-- Modelled from the spec: the alert policy `IStrategy::Alert` of `istrategy.h`;
`getNewOrder` only ever returns `enabled`. -/
inductive Alert where
  | disabled : Alert
  | enabled : Alert
deriving DecidableEq

/-- `IStrategy::OrderData` as the specification names its three slots:
`{alertFlag, size, alertPolicy}`. -/
structure OrderData (α : Type) where
  alertFlag : α
  size : α
  alertPolicy : Alert
deriving DecidableEq

section Engine

variable {α : Type} [LinearOrderedField α]

/-- `constexpr double epsilon = 1e-14;` -/
def epsilon : α := 1 / 10 ^ 14

/-- Modelled from the spec: `not_nan(x, dflt)` of `numerical.h` replaces the
failure sentinel of a root-solver by the fallback `dflt`. -/
def not_nan (x : Option α) (dflt : α) : α :=
  match x with
  | some v => v
  | none => dflt

/-- Modelled from the spec: the contract of `Numerics<>::find_root_pos`
(`numerical.h` is not part of the sources): it searches for a root `x > 0` or
reports failure, so every root it reports is positive. -/
def SolverPositive (e : Env α) : Prop :=
  ∀ (guess hint : α) (f : α → α) (x : α), e.find_root_pos guess hint f = some x → 0 < x

/-! ## Closed-form curve functions -/

/-- `Strategy_PowerN::fnx` (position at price `x` for pivot `k`). -/
def fnx (pow : α → α → α) (p w k c x : α) : α :=
  let xk := x / k;
  (w * p * c) / (2 * k * w * w) * (pow xk (-w) - pow xk w)

/-- `Strategy_PowerN::integral_fnx` (value at price `x` for pivot `k`). -/
def integral_fnx (pow : α → α → α) (p w k c x : α) : α :=
  let xk := x / k;
  -(c * p * (-2 * k * w + (1 + w) * x * pow xk (-w) + (w - 1) * x * pow xk w)
      / (2 * k * (w - 1) * w * (w + 1)))

/-- `Strategy_PowerN::invert_fnx`. -/
def invert_fnx (pow : α → α → α) (sqrt : α → α) (p w k c x : α) : α :=
  k * pow ((sqrt (c * c * p * p + k * k * x * x * w * w) - k * x * w) / (c * p)) (1 / w)

/-! ## Pivot solvers -/

/-- `Strategy_PowerN::find_k(w, c, p, price, val, pos)`. -/
def find_k (e : Env α) (w c p price val pos : α) : α :=
  if val ≥ epsilon then price
  else not_nan (e.find_root_pos price pos
    (fun k => integral_fnx e.pow p w k c price - val)) price

/-- `Strategy_PowerN::find_k_from_pos(w, c, p, price, pos)`. -/
def find_k_from_pos (e : Env α) (w c p price pos : α) : α :=
  if |pos| < epsilon then price
  else not_nan (e.find_root_pos price pos
    (fun k => fnx e.pow p w k c price - pos)) price

/-- Modelled from the spec: the `Config` overload `find_k(cfg, price, val, pos)`
of `strategy_powern.h` forwards the width, scale and curvature of the
configuration to `find_k`. -/
def find_k_cfg (e : Env α) (cfg : Config α) (price val pos : α) : α :=
  find_k e cfg.w cfg.c cfg.p price val pos

/-- Modelled from the spec: the `Config` overload
`find_k_from_pos(cfg, price, pos)` of `strategy_powern.h`. -/
def find_k_from_pos_cfg (e : Env α) (cfg : Config α) (price pos : α) : α :=
  find_k_from_pos e cfg.w cfg.c cfg.p price pos

/-- Modelled from the spec: `calc_value(cfg, k, x)` of `strategy_powern.h` is
the value curve `integral_fnx(cfg.p, cfg.w, k, cfg.c, x)`. -/
def calc_value (e : Env α) (cfg : Config α) (k x : α) : α :=
  integral_fnx e.pow cfg.p cfg.w k cfg.c x

/-- Modelled from the spec: `calc_position(cfg, k, x)` of `strategy_powern.h` is
the position curve `fnx(cfg.p, cfg.w, k, cfg.c, x)`. -/
def calc_position (e : Env α) (cfg : Config α) (k x : α) : α :=
  fnx e.pow cfg.p cfg.w k cfg.c x

/-! ## The re-centering rule -/

/-- `Strategy_PowerN::find_k_rule(new_price, alert)`. `new_k1` is the local
`new_k` before the clamp of lines 60-62; it keeps its initial value
`_state._k` when neither solve branch is taken. `_state._pos` in a condition is
`pos ≠ 0`. -/
def find_k_rule (e : Env α) (s : Strategy α) (new_price : α) (alert : Bool) : RuleResult α :=
  let aprx_pnl := s.state.pos * (new_price - s.state.p)
  let new_val := s.state.val + aprx_pnl
  let yield := calc_value e s.cfg s.state.p new_price
  let new_k : α :=
    if (s.state.p - s.state.k) * (new_price - s.state.k) < 0 then
      new_price
    else
      let new_k1 : α :=
        if aprx_pnl < 0 ∨ alert = true then
          find_k_cfg e s.cfg new_price new_val s.state.pos
        else if new_val < 0 ∨ s.state.pos = 0 then
          let y := if s.state.pos ≠ 0 then s.cfg.yield_mult else s.cfg.initial_yield_mult
          let extra_val := yield * y
          let new_val2 := new_val + extra_val
          find_k_cfg e s.cfg new_price new_val2
            (if s.state.pos ≠ 0 then s.state.pos else s.state.p - new_price)
        else
          s.state.k
      if s.state.pos ≠ 0 ∧ (new_k1 - s.state.k) * (new_price - s.state.k) < 0 then
        s.state.k
      else
        new_k1
  { k := new_k
    val := calc_value e s.cfg new_k new_price
    pos := calc_position e s.cfg new_k new_price }

/-- `Strategy_PowerN::isValid`. -/
def isValid (s : Strategy α) : Bool :=
  decide (s.state.k > 0) && decide (s.state.p > 0)

/-! ## Persistence boundary -/

/-- Modelled from the spec: the fragment of imtjson's `json::Value` that
`exportState` builds and `importState` reads: numbers and objects (key/value
lists), plus the undefined value a failed lookup yields. -/
inductive Json (α : Type) where
  | undefined : Json α
  | number : α → Json α
  | object : List (String × Json α) → Json α

/-- Modelled from the spec: `json::Value::operator[](key)`, the member stored
under `key` in an object, the undefined value otherwise. -/
def Json.get (j : Json α) (key : String) : Json α :=
  match j with
  | .object fields =>
    match fields.find? (fun kv => kv.1 == key) with
    | some kv => kv.2
    | none => .undefined
  | _ => .undefined

/-- Modelled from the spec: `json::Value::getNumber()`, the numeric content of
a number and `0` for every other value. -/
def Json.getNumber (j : Json α) : α :=
  match j with
  | .number x => x
  | _ => 0

/-- `Strategy_PowerN::importState(src, minfo)`. -/
def importState (s : Strategy α) (src : Json α) (_minfo : MarketInfo α) : Strategy α :=
  let st : State α :=
    { val := (src.get "val").getNumber
      k := (src.get "k").getNumber
      p := (src.get "p").getNumber
      pos := (src.get "pos").getNumber }
  { cfg := s.cfg, state := st }

/-- `Strategy_PowerN::exportState()`. -/
def exportState (s : Strategy α) : Json α :=
  .object
    [("val", .number s.state.val),
     ("k", .number s.state.k),
     ("p", .number s.state.p),
     ("pos", .number s.state.pos)]

/-! ## Lifecycle operations -/

/-- `Strategy_PowerN::init(minfo, price, assets, currency)`; the thrown
`std::runtime_error` is the `error` result. -/
def init (e : Env α) (s : Strategy α) (_minfo : MarketInfo α)
    (price assets _currency : α) : Except String (Strategy α) :=
  let k := find_k_from_pos_cfg e s.cfg price assets
  let st : State α :=
    { k := k
      val := calc_value e s.cfg k price
      p := price
      pos := assets }
  let out : Strategy α := { cfg := s.cfg, state := st }
  if isValid out = false then .error "Unable to initialize strategy"
  else .ok out

/-- `Strategy_PowerN::onTrade(minfo, tradePrice, tradeSize, assetsLeft,
currencyLeft)`. An invalid engine bootstraps through `init` and re-enters
`onTrade` on the engine `init` returned. The one-argument call
`find_k_rule(tradePrice)` of the source uses the default `alert = false` of the
declaration in `strategy_powern.h`. -/
def onTrade (e : Env α) (s : Strategy α) (minfo : MarketInfo α)
    (tradePrice tradeSize assetsLeft currencyLeft : α) :
    Except String (OnTradeResult α × Strategy α) :=
  if isValid s = false then
    match hinit : init e s minfo tradePrice (assetsLeft - tradeSize) currencyLeft with
    | .error err => .error err
    | .ok s1 => onTrade e s1 minfo tradePrice tradeSize assetsLeft currencyLeft
  else
    let assetsLeft1 : α :=
      if |assetsLeft| < minfo.calcMinSize tradePrice then 0 else assetsLeft
    let r1 := find_k_rule e s tradePrice (decide (tradeSize = 0))
    let new_price : α :=
      if tradeSize ≠ 0 then e.find_price_from_pos s.cfg r1.k assetsLeft1 else tradePrice
    let r : RuleResult α :=
      if tradeSize ≠ 0 then find_k_rule e s tradePrice false else r1
    let new_state : State α :=
      { val := r.val
        k := r.k
        p := new_price
        pos := assetsLeft1 }
    let pnl := (tradePrice - s.state.p) * (assetsLeft1 - tradeSize)
    let np := s.state.val - r.val + pnl
    .ok ({ realizedPnl := np, fee := 0, newPivot := new_state.k, extra := 0 },
         { cfg := s.cfg, state := new_state })
termination_by (if isValid s = false then 1 else 0 : Nat)
decreasing_by
  rename_i hinv
  have hs1 : isValid s1 = true := by
    unfold init at hinit
    simp only [] at hinit
    split at hinit
    · exact absurd hinit (by simp)
    · rename_i hval
      have := Except.ok.inj hinit
      subst this
      simpa using hval
  simp [hs1, hinv]

/-- `Strategy_PowerN::onIdle(minfo, curTicker, assets, currency)`;
`PStrategy(this)` is the receiver itself. -/
def onIdle (e : Env α) (s : Strategy α) (minfo : MarketInfo α) (curTicker : Ticker α)
    (assets currency : α) : Except String (Strategy α) :=
  if isValid s = false then
    match hinit : init e s minfo curTicker.last assets currency with
    | .error err => .error err
    | .ok s1 => onIdle e s1 minfo curTicker assets currency
  else .ok s
termination_by (if isValid s = false then 1 else 0 : Nat)
decreasing_by
  rename_i hinv
  have hs1 : isValid s1 = true := by
    unfold init at hinit
    simp only [] at hinit
    split at hinit
    · exact absurd hinit (by simp)
    · rename_i hval
      have := Except.ok.inj hinit
      subst this
      simpa using hval
  simp [hs1, hinv]

/-- `Strategy_PowerN::calc_order(price, side)`; the one-argument call
`find_k_rule(price)` uses the default `alert = false`. -/
def calc_order (e : Env α) (s : Strategy α) (price side : α) : α :=
  let r := find_k_rule e s price false
  let apos := r.pos * side
  let diff := apos - s.state.pos * side
  diff

/-- `Strategy_PowerN::getNewOrder(minfo, cur_price, new_price, dir, assets,
currency, rej)`. An invalid engine bootstraps through `init` and re-enters
`getNewOrder` on the engine `init` returned. -/
def getNewOrder (e : Env α) (s : Strategy α) (minfo : MarketInfo α)
    (cur_price new_price dir assets currency : α) (rej : Bool) :
    Except String (OrderData α) :=
  if isValid s = false then
    match hinit : init e s minfo cur_price assets currency with
    | .error err => .error err
    | .ok s1 => getNewOrder e s1 minfo cur_price new_price dir assets currency rej
  else
    let ord := calc_order e s new_price dir * dir
    .ok { alertFlag := 0, size := ord, alertPolicy := Alert.enabled }
termination_by (if isValid s = false then 1 else 0 : Nat)
decreasing_by
  rename_i hinv
  have hs1 : isValid s1 = true := by
    unfold init at hinit
    simp only [] at hinit
    split at hinit
    · exact absurd hinit (by simp)
    · rename_i hval
      have := Except.ok.inj hinit
      subst this
      simpa using hval
  simp [hs1, hinv]

/-- The yield as the specification words it (section 4.3, step 3): the
value-curve delta between the old price and the new price under the old pivot,
`value(k, new_price) - value(k, p)`. To be compared with the `yield` local of
`find_k_rule`, which is `calc_value(_cfg, _state._p, new_price)`. -/
def yield_spec (e : Env α) (s : Strategy α) (new_price : α) : α :=
  calc_value e s.cfg s.state.k new_price - calc_value e s.cfg s.state.k s.state.p

end Engine

/-! ## Test doubles used to evaluate the engine on concrete inputs -/

/-- A stand-in for `std::pow` on ℚ that is exact for integer exponents (the
exponent's numerator is used; the inputs below only use `w = 2`). -/
def qpow (x y : ℚ) : ℚ := x ^ y.num

/-- An environment whose root-solver never converges, so every solve takes the
documented fallback; the inverse position-to-price helper halves the pivot for a
nonzero position (exact for `w = 2, p = 1, c = 16, k = 20, pos = 3/4`). -/
def failEnv : Env ℚ :=
  { pow := qpow
    sqrt := fun x => x
    find_root_pos := fun _ _ _ => none
    find_price_from_pos := fun _ k pos => if pos = 0 then k else k / 2 }

/-- An environment whose root-solver reports the fixed root `root` for every
solve; the inverse position-to-price helper is the one of `failEnv`. -/
def rootEnv (root : ℚ) : Env ℚ :=
  { pow := qpow
    sqrt := fun x => x
    find_root_pos := fun _ _ _ => some root
    find_price_from_pos := fun _ k pos => if pos = 0 then k else k / 2 }

/-- The configuration of the worked examples: `w = 2`, `p = 1`, `c = 16`, both
yield multipliers `1`, no initial budget. -/
def cfg0 : Config ℚ :=
  { w := 2, p := 1, c := 16, yield_mult := 1, initial_yield_mult := 1, initial_budget := 0 }

/-- A valid engine holding one unit: pivot 20, last price 15. -/
def heldEngine : Strategy ℚ :=
  { cfg := cfg0, state := { val := 0, k := 20, p := 15, pos := 1 } }

/-- A valid flat engine resting on its pivot: pivot 20, last price 20. -/
def flatEngine : Strategy ℚ :=
  { cfg := cfg0, state := { val := 0, k := 20, p := 20, pos := 0 } }

/-- An environment whose root-solver checks the candidate `root`: it reports
`root` when the function handed to it vanishes there, and failure otherwise. -/
def probeEnv (root : ℚ) : Env ℚ :=
  { pow := qpow
    sqrt := fun x => x
    find_root_pos := fun _ _ f => if f root = 0 then some root else none
    find_price_from_pos := fun _ k pos => if pos = 0 then k else k / 2 }

/-- A valid flat engine whose last price 10 is away from its pivot 20; its value
`-17/6` is the value curve of pivot 20 at the price 10. -/
def driftedEngine : Strategy ℚ :=
  { cfg := cfg0, state := { val := -17 / 6, k := 20, p := 10, pos := 0 } }

/-- A valid engine holding one unit bought below the market: pivot 20, last
price 15, accumulated value 1. -/
def gainEngine : Strategy ℚ :=
  { cfg := cfg0, state := { val := 1, k := 20, p := 15, pos := 1 } }

/-- A freshly constructed engine: `_state{}` is all zero, hence invalid. -/
def freshEngine : Strategy ℚ :=
  { cfg := cfg0, state := { val := 0, k := 0, p := 0, pos := 0 } }

/-- A market whose minimum tradable size is `1/10` at every price. -/
def tenthMarket : MarketInfo ℚ :=
  { calcMinSize := fun _ => 1 / 10 }

end PowerN

namespace PowerN

section RuleTheorems

variable {α : Type} [LinearOrderedField α]

/-- C1 (anti-oscillation clamp): when the engine holds a nonzero position, the
pivot returned by `find_k_rule` satisfies
`(k' - k) * (new_price - k) ≥ 0` for every price, both values of `alert` and
every behaviour of the root-solver. -/
theorem find_k_rule_clamp (e : Env α) (s : Strategy α) (new_price : α) (alert : Bool)
    (hpos : s.state.pos ≠ 0) :
    0 ≤ ((find_k_rule e s new_price alert).k - s.state.k) * (new_price - s.state.k) := by
  unfold find_k_rule
  simp only []
  split_ifs with hcross <;>
    first
    | exact mul_self_nonneg _
    | (rw [sub_self, zero_mul])
    | (rename_i hclamp; exact not_lt.mp (fun h => hclamp ⟨hpos, h⟩))

/-- Witness for C1: the solver proposes 30, on the far side of the pivot 20
from the new price 10, while one unit is held. -/
theorem find_k_rule_clamp_witness :
    heldEngine.state.pos ≠ 0 ∧
      0 ≤ ((find_k_rule (rootEnv 30) heldEngine 10 false).k - heldEngine.state.k)
            * (10 - heldEngine.state.k) :=
  ⟨by simp [heldEngine], find_k_rule_clamp (rootEnv 30) heldEngine 10 false (by simp [heldEngine])⟩

/-- C2 (pivot-crossing reset): when the old price and the new price lie
strictly on opposite sides of the old pivot, `find_k_rule` returns the pivot
`new_price` itself, for both values of `alert`, and the whole result is the same
under every root-solver. -/
theorem find_k_rule_cross_reset (e : Env α) (s : Strategy α) (new_price : α) (alert : Bool)
    (hcross : (s.state.p - s.state.k) * (new_price - s.state.k) < 0) :
    (find_k_rule e s new_price alert).k = new_price ∧
      ∀ solver : α → α → (α → α) → Option α,
        find_k_rule { e with find_root_pos := solver } s new_price alert
          = find_k_rule e s new_price alert := by
  constructor
  · simp [find_k_rule, hcross]
  · intro solver
    simp [find_k_rule, hcross, calc_value, calc_position]

/-- Witness for C2: last price 15 below the pivot 20, new price 25 above it. -/
theorem find_k_rule_cross_reset_witness :
    (heldEngine.state.p - heldEngine.state.k) * (25 - heldEngine.state.k) < 0 ∧
      (find_k_rule (rootEnv 30) heldEngine 25 true).k = 25 :=
  ⟨by norm_num [heldEngine],
   (find_k_rule_cross_reset (rootEnv 30) heldEngine 25 true (by norm_num [heldEngine])).1⟩

end RuleTheorems

section CurveTheorems

/-- Derivative of `t ↦ t * (t / k) ^ a` at a positive point. -/
theorem hasDerivAt_mul_rpow_div (k x a : ℝ) (hk : 0 < k) (hx : 0 < x) :
    HasDerivAt (fun t : ℝ => t * (t / k) ^ a) ((1 + a) * (x / k) ^ a) x := by
  have hxk : x / k ≠ 0 := (div_pos hx hk).ne'
  have h1 : HasDerivAt (fun t : ℝ => (t / k) ^ a) (1 / k * a * (x / k) ^ (a - 1)) x :=
    ((hasDerivAt_id x).div_const k).rpow_const (Or.inl hxk)
  have h2 := (hasDerivAt_id x).mul h1
  refine h2.congr_deriv ?_
  rw [Real.rpow_sub_one hxk]
  simp only [id]
  field_simp
  ring

/-- C3: over the reals, with `std::pow` read as the real power function, the
value function `integral_fnx` is differentiable in the price at every `x > 0`
and its derivative there is the position function `fnx`, for `k > 0`, `w > 0`,
`w ≠ 1` and every `p`, `c`. -/
theorem integral_fnx_hasDerivAt (p w k c x : ℝ) (hk : 0 < k) (hx : 0 < x) (hw : 0 < w)
    (hw1 : w ≠ 1) :
    HasDerivAt (fun t => integral_fnx Real.rpow p w k c t) (fnx Real.rpow p w k c x) x := by
  have hA := hasDerivAt_mul_rpow_div k x (-w) hk hx
  have hB := hasDerivAt_mul_rpow_div k x w hk hx
  have hw1' : w - 1 ≠ 0 := sub_ne_zero.mpr hw1
  have hnum : HasDerivAt
      (fun t : ℝ => -2 * k * w + (1 + w) * t * (t / k) ^ (-w) + (w - 1) * t * (t / k) ^ w)
      ((1 + w) * ((1 + -w) * (x / k) ^ (-w)) + (w - 1) * ((1 + w) * (x / k) ^ w)) x := by
    have h1 := (hA.const_mul (1 + w)).const_add (-2 * k * w)
    have h2 := hB.const_mul (w - 1)
    have h3 := h1.add h2
    refine (h3.congr_of_eventuallyEq ?_)
    exact Filter.Eventually.of_forall (fun t => by simp only []; ring)
  have hfull := ((hnum.const_mul (c * p)).div_const (2 * k * (w - 1) * w * (w + 1))).neg
  unfold integral_fnx fnx
  simp only [Real.rpow_eq_pow]
  refine (hfull.congr_deriv ?_)
  have hk' : k ≠ 0 := hk.ne'
  have hw' : w ≠ 0 := hw.ne'
  have hw2 : w + 1 ≠ 0 := by positivity
  field_simp
  ring

/-- Witness for C3: width 2, pivot 20, scale 16, at the price 15. -/
theorem integral_fnx_hasDerivAt_witness :
    HasDerivAt (fun t => integral_fnx Real.rpow 1 2 20 16 t) (fnx Real.rpow 1 2 20 16 15) 15 :=
  integral_fnx_hasDerivAt 1 2 20 16 15 (by norm_num) (by norm_num) (by norm_num) (by norm_num)

/-- C4: over the reals the position function is antisymmetric in `log (x / k)`:
`fnx` at `k * t` is the negative of `fnx` at `k / t` for `k > 0`, `t > 0`,
`w > 0`, and `fnx` vanishes at `x = k`. -/
theorem fnx_antisymm (p w k c t : ℝ) (hk : 0 < k) (ht : 0 < t) (_hw : 0 < w) :
    fnx Real.rpow p w k c (k * t) = -fnx Real.rpow p w k c (k / t) ∧
      fnx Real.rpow p w k c k = 0 := by
  have hk' : k ≠ 0 := hk.ne'
  have e1 : k * t / k = t := by field_simp
  have e2 : k / t / k = t⁻¹ := by field_simp; exact mul_comm _ _
  have e3 : k / k = 1 := div_self hk'
  unfold fnx
  simp only [Real.rpow_eq_pow, e1, e2, e3]
  constructor
  · rw [Real.inv_rpow ht.le, Real.inv_rpow ht.le, Real.rpow_neg ht.le, inv_inv]
    ring
  · simp

/-- Witness for C4: pivot 20 and ratio 2, i.e. the prices 40 and 10. -/
theorem fnx_antisymm_witness :
    fnx Real.rpow 1 2 20 16 (20 * 2) = -fnx Real.rpow 1 2 20 16 (20 / 2) ∧
      fnx Real.rpow 1 2 20 16 20 = 0 :=
  fnx_antisymm 1 2 20 16 2 (by norm_num) (by norm_num) (by norm_num)

end CurveTheorems

section LifecycleTheorems

variable {α : Type} [LinearOrderedField α]

/-- The engine `init` returns carries the receiver's configuration, the solved
pivot, the value on that pivot's curve, and is valid. -/
theorem init_ok (e : Env α) (s s1 : Strategy α) (minfo : MarketInfo α)
    (price assets currency : α) (h : init e s minfo price assets currency = .ok s1) :
    isValid s1 = true ∧
      s1 = { cfg := s.cfg
             state := { val := calc_value e s.cfg (find_k_from_pos_cfg e s.cfg price assets) price
                        k := find_k_from_pos_cfg e s.cfg price assets
                        p := price
                        pos := assets } } := by
  unfold init at h
  simp only [] at h
  split at h
  · exact absurd h (by simp)
  · rename_i hval
    have hs := Except.ok.inj h
    subst hs
    exact ⟨by simpa using hval, rfl⟩

/-- On a valid engine `onTrade` runs lines 127-148 of the source directly. -/
theorem onTrade_of_valid (e : Env α) (s : Strategy α) (minfo : MarketInfo α)
    (tradePrice tradeSize assetsLeft currencyLeft : α) (hv : isValid s = true) :
    onTrade e s minfo tradePrice tradeSize assetsLeft currencyLeft =
      .ok ({ realizedPnl :=
               s.state.val
                 - (if tradeSize ≠ 0 then find_k_rule e s tradePrice false
                    else find_k_rule e s tradePrice (decide (tradeSize = 0))).val
                 + (tradePrice - s.state.p)
                   * ((if |assetsLeft| < minfo.calcMinSize tradePrice then 0 else assetsLeft)
                      - tradeSize)
             fee := 0
             newPivot :=
               (if tradeSize ≠ 0 then find_k_rule e s tradePrice false
                else find_k_rule e s tradePrice (decide (tradeSize = 0))).k
             extra := 0 },
           { cfg := s.cfg
             state :=
               { val := (if tradeSize ≠ 0 then find_k_rule e s tradePrice false
                         else find_k_rule e s tradePrice (decide (tradeSize = 0))).val
                 k := (if tradeSize ≠ 0 then find_k_rule e s tradePrice false
                       else find_k_rule e s tradePrice (decide (tradeSize = 0))).k
                 p := if tradeSize ≠ 0 then
                        e.find_price_from_pos s.cfg
                          (find_k_rule e s tradePrice (decide (tradeSize = 0))).k
                          (if |assetsLeft| < minfo.calcMinSize tradePrice then 0 else assetsLeft)
                      else tradePrice
                 pos := if |assetsLeft| < minfo.calcMinSize tradePrice then 0
                        else assetsLeft } }) := by
  rw [onTrade]
  simp [hv]

/-- On an invalid engine `onTrade` is `onTrade` of the engine `init` builds, and
fails when `init` fails. -/
theorem onTrade_of_invalid (e : Env α) (s : Strategy α) (minfo : MarketInfo α)
    (tradePrice tradeSize assetsLeft currencyLeft : α) (hv : isValid s = false) :
    onTrade e s minfo tradePrice tradeSize assetsLeft currencyLeft =
      (init e s minfo tradePrice (assetsLeft - tradeSize) currencyLeft).bind
        (fun s1 => onTrade e s1 minfo tradePrice tradeSize assetsLeft currencyLeft) := by
  rw [onTrade]
  simp only [hv, if_true]
  cases hinit : init e s minfo tradePrice (assetsLeft - tradeSize) currencyLeft <;> rfl

/-- C5 (dust snap): when `|assetsLeft|` is strictly below the market's minimum
tradable size at `tradePrice`, every successor engine `onTrade` returns has
`pos = 0`; and `onTrade` does return on every valid engine. -/
theorem onTrade_dust_snap (e : Env α) (s : Strategy α) (minfo : MarketInfo α)
    (tradePrice tradeSize assetsLeft currencyLeft : α)
    (hdust : |assetsLeft| < minfo.calcMinSize tradePrice) :
    (isValid s = true →
        ∃ r, onTrade e s minfo tradePrice tradeSize assetsLeft currencyLeft = .ok r) ∧
      ∀ (res : OnTradeResult α) (s1 : Strategy α),
        onTrade e s minfo tradePrice tradeSize assetsLeft currencyLeft = .ok (res, s1) →
          s1.state.pos = 0 := by
  have hvalid : ∀ (t : Strategy α) (res : OnTradeResult α) (s1 : Strategy α),
      isValid t = true →
      onTrade e t minfo tradePrice tradeSize assetsLeft currencyLeft = .ok (res, s1) →
      s1.state.pos = 0 := by
    intro t res s1 hv hret
    rw [onTrade_of_valid e t minfo tradePrice tradeSize assetsLeft currencyLeft hv] at hret
    have h2 := congrArg (fun r => r.2.state.pos) (Except.ok.inj hret)
    simp only [if_pos hdust] at h2
    exact h2.symm
  refine ⟨fun hv => ⟨_, onTrade_of_valid e s minfo tradePrice tradeSize assetsLeft currencyLeft hv⟩,
    ?_⟩
  intro res s1 hret
  cases hv : isValid s with
  | true => exact hvalid s res s1 hv hret
  | false =>
    rw [onTrade_of_invalid e s minfo tradePrice tradeSize assetsLeft currencyLeft hv] at hret
    cases hinit : init e s minfo tradePrice (assetsLeft - tradeSize) currencyLeft with
    | error err => rw [hinit] at hret; exact absurd hret (by simp [Except.bind])
    | ok t =>
      rw [hinit] at hret
      exact hvalid t res s1 (init_ok e s t minfo _ _ _ hinit).1 hret

/-- Witness for C5: a re-quote at 25 on the flat engine with a residual of
`1/20`, below the minimum size `1/10`. -/
theorem onTrade_dust_snap_witness :
    |(1 / 20 : ℚ)| < tenthMarket.calcMinSize 25 ∧
      (∃ r, onTrade failEnv flatEngine tenthMarket 25 0 (1 / 20) 0 = .ok r) ∧
      ∀ (res : OnTradeResult ℚ) (s1 : Strategy ℚ),
        onTrade failEnv flatEngine tenthMarket 25 0 (1 / 20) 0 = .ok (res, s1) →
          s1.state.pos = 0 :=
  have hd : |(1 / 20 : ℚ)| < tenthMarket.calcMinSize 25 := by
    norm_num [tenthMarket, abs_of_pos]
  ⟨hd,
   (onTrade_dust_snap failEnv flatEngine tenthMarket 25 0 (1 / 20) 0 hd).1
     (by norm_num [isValid, flatEngine]),
   (onTrade_dust_snap failEnv flatEngine tenthMarket 25 0 (1 / 20) 0 hd).2⟩

/-- C6, as stated, fails when the dust snap fires: on the valid flat engine
(pivot 20, last price 20) the re-quote `onTrade(25, 0, 1/20, 0)` reports the
realized P&L `0`, while `oldVal - ruleVal + (price - oldPrice) * (assetsLeft -
tradeSize)` with the `assetsLeft` that was passed is `1/4`. -/
theorem onTrade_pnl_raw_assets_counterexample :
    isValid flatEngine = true ∧
      onTrade failEnv flatEngine tenthMarket 25 0 (1 / 20) 0
        = .ok ({ realizedPnl := 0, fee := 0, newPivot := 25, extra := 0 },
               { cfg := cfg0, state := { val := 0, k := 25, p := 25, pos := 0 } }) ∧
      (0 : ℚ) ≠ flatEngine.state.val - 0 + (25 - flatEngine.state.p) * (1 / 20 - 0) := by
  have hv : isValid flatEngine = true := by norm_num [isValid, flatEngine]
  refine ⟨hv, ?_, ?_⟩
  · rw [onTrade_of_valid failEnv flatEngine tenthMarket 25 0 (1 / 20) 0 hv]
    norm_num [find_k_rule, failEnv, flatEngine, cfg0, tenthMarket, find_k_cfg, find_k, not_nan,
      epsilon, calc_value, calc_position, integral_fnx, fnx, qpow, abs_of_pos]
  · norm_num [flatEngine]

/-- C6 (amended): on a valid engine `onTrade` returns
`{realizedPnl, 0, newPivot, 0}` together with a successor engine of the same
configuration, where `newPivot` is the successor's `k` and
`realizedPnl = oldVal - ruleVal + (price - oldPrice) * (a - tradeSize)`, with
`ruleVal` the successor's `val` and `a` the successor's `pos`: `assetsLeft`
after the dust snap. -/
theorem onTrade_result (e : Env α) (s : Strategy α) (minfo : MarketInfo α)
    (tradePrice tradeSize assetsLeft currencyLeft : α) (hv : isValid s = true) :
    ∃ (res : OnTradeResult α) (s1 : Strategy α),
      onTrade e s minfo tradePrice tradeSize assetsLeft currencyLeft = .ok (res, s1) ∧
        s1.cfg = s.cfg ∧
        s1.state.pos = (if |assetsLeft| < minfo.calcMinSize tradePrice then 0 else assetsLeft) ∧
        res.fee = 0 ∧ res.extra = 0 ∧
        res.newPivot = s1.state.k ∧
        res.realizedPnl =
          s.state.val - s1.state.val + (tradePrice - s.state.p) * (s1.state.pos - tradeSize) :=
  ⟨_, _, onTrade_of_valid e s minfo tradePrice tradeSize assetsLeft currencyLeft hv,
    rfl, rfl, rfl, rfl, rfl, rfl⟩

/-- Witness for C6 (amended): the fill `onTrade(15, 3/4, 3/4, 0)` on the flat
engine. -/
theorem onTrade_result_witness :
    isValid flatEngine = true ∧
      ∃ (res : OnTradeResult ℚ) (s1 : Strategy ℚ),
        onTrade (rootEnv 20) flatEngine tenthMarket 15 (3 / 4) (3 / 4) 0 = .ok (res, s1) ∧
          s1.cfg = flatEngine.cfg ∧
          s1.state.pos = (if |(3 / 4 : ℚ)| < tenthMarket.calcMinSize 15 then 0 else 3 / 4) ∧
          res.fee = 0 ∧ res.extra = 0 ∧
          res.newPivot = s1.state.k ∧
          res.realizedPnl =
            flatEngine.state.val - s1.state.val
              + (15 - flatEngine.state.p) * (s1.state.pos - 3 / 4) :=
  ⟨by norm_num [isValid, flatEngine],
   onTrade_result (rootEnv 20) flatEngine tenthMarket 15 (3 / 4) (3 / 4) 0
     (by norm_num [isValid, flatEngine])⟩

/-- C7 (the code at the failing input): the fill `onTrade(15, 3/4, 3/4, 0)` on
the valid flat engine (pivot 20, last price 20), with the solver reporting the
exact root 20. The inferred price is `q = 10`, where the position curve of pivot
20 holds `3/4`; the rule at `q` has value `-17/6`, but the successor carries the
value `-9/16` of the rule at `tradePrice = 15` next to `p = 10`. -/
theorem onTrade_second_pass_at_tradePrice :
    isValid flatEngine = true ∧
      onTrade (rootEnv 20) flatEngine tenthMarket 15 (3 / 4) (3 / 4) 0
        = .ok ({ realizedPnl := 9 / 16, fee := 0, newPivot := 20, extra := 0 },
               { cfg := cfg0, state := { val := -9 / 16, k := 20, p := 10, pos := 3 / 4 } }) ∧
      find_k_rule (rootEnv 20) flatEngine 15 false
        = { k := 20, val := -9 / 16, pos := 35 / 144 } ∧
      (rootEnv 20).find_price_from_pos cfg0
          (find_k_rule (rootEnv 20) flatEngine 15 false).k (3 / 4) = 10 ∧
      find_k_rule (rootEnv 20) flatEngine 10 false
        = { k := 20, val := -17 / 6, pos := 3 / 4 } := by
  have hv : isValid flatEngine = true := by norm_num [isValid, flatEngine]
  refine ⟨hv, ?_, ?_, ?_, ?_⟩
  · rw [onTrade_of_valid (rootEnv 20) flatEngine tenthMarket 15 (3 / 4) (3 / 4) 0 hv]
    norm_num [find_k_rule, rootEnv, flatEngine, cfg0, tenthMarket, find_k_cfg, find_k, not_nan,
      epsilon, calc_value, calc_position, integral_fnx, fnx, qpow, abs_of_pos]
  all_goals
    norm_num [find_k_rule, rootEnv, flatEngine, cfg0, tenthMarket, find_k_cfg, find_k, not_nan,
      epsilon, calc_value, calc_position, integral_fnx, fnx, qpow, abs_of_pos]

/-- What the code does on a fill: for a valid engine and `tradeSize ≠ 0` the
successor's `k` and `val` are those of `find_k_rule` at `tradePrice` with
`alert = false`, the very result of the first pass; the inferred price only
becomes the successor's `p`. -/
theorem onTrade_fill_rule_at_tradePrice (e : Env α) (s : Strategy α) (minfo : MarketInfo α)
    (tradePrice tradeSize assetsLeft currencyLeft : α) (hv : isValid s = true)
    (hsize : tradeSize ≠ 0) :
    ∃ (res : OnTradeResult α) (s1 : Strategy α),
      onTrade e s minfo tradePrice tradeSize assetsLeft currencyLeft = .ok (res, s1) ∧
        s1.state.k = (find_k_rule e s tradePrice false).k ∧
        s1.state.val = (find_k_rule e s tradePrice false).val ∧
        s1.state.p = e.find_price_from_pos s.cfg (find_k_rule e s tradePrice false).k
                       s1.state.pos := by
  refine ⟨_, _, onTrade_of_valid e s minfo tradePrice tradeSize assetsLeft currencyLeft hv,
    ?_, ?_, ?_⟩ <;> simp [hsize]

/-- On a valid engine `onIdle` returns the receiver. -/
theorem onIdle_of_valid (e : Env α) (s : Strategy α) (minfo : MarketInfo α)
    (curTicker : Ticker α) (assets currency : α) (hv : isValid s = true) :
    onIdle e s minfo curTicker assets currency = .ok s := by
  rw [onIdle]
  simp [hv]

/-- C8 (idle idempotence): on a valid engine (`k > 0` and `p > 0`) `onIdle`
returns the receiver itself, configuration and state `(val, k, p, pos)`
unchanged, so a second `onIdle` with the same inputs returns an equal engine. -/
theorem onIdle_idempotent (e : Env α) (s : Strategy α) (minfo : MarketInfo α)
    (curTicker : Ticker α) (assets currency : α) (hk : 0 < s.state.k) (hp : 0 < s.state.p) :
    onIdle e s minfo curTicker assets currency = .ok s ∧
      (onIdle e s minfo curTicker assets currency).bind
          (fun s1 => onIdle e s1 minfo curTicker assets currency) = .ok s := by
  have hv : isValid s = true := by simp [isValid, hk, hp]
  have h := onIdle_of_valid e s minfo curTicker assets currency hv
  exact ⟨h, by rw [h]; exact h⟩

/-- Witness for C8: the engine holding one unit, idle at the ticker price 17. -/
theorem onIdle_idempotent_witness :
    (0 < heldEngine.state.k ∧ 0 < heldEngine.state.p) ∧
      onIdle failEnv heldEngine tenthMarket { last := 17 } 1 0 = .ok heldEngine ∧
      (onIdle failEnv heldEngine tenthMarket { last := 17 } 1 0).bind
          (fun s1 => onIdle failEnv s1 tenthMarket { last := 17 } 1 0) = .ok heldEngine :=
  ⟨⟨by norm_num [heldEngine], by norm_num [heldEngine]⟩,
   onIdle_idempotent failEnv heldEngine tenthMarket { last := 17 } 1 0
     (by norm_num [heldEngine]) (by norm_num [heldEngine])⟩

/-- C9 (state round trip): importing the exported state of `s` into an engine
`r` yields the engine with the configuration of `r` and the state of `s`, equal
in all four fields; with `r = s` the result is `s` itself. -/
theorem importState_exportState (r s : Strategy α) (minfo : MarketInfo α) :
    importState r (exportState s) minfo = { cfg := r.cfg, state := s.state } ∧
      importState s (exportState s) minfo = s := by
  constructor <;> simp [importState, exportState, Json.get, Json.getNumber, List.find?]

/-- C10 (init validity): with a root-solver that only reports positive roots
or failure, `init` at every `price > 0`, for every `assets` and `currency`,
returns an engine (it does not raise) and that engine is valid: `k > 0` and
`p > 0`. -/
theorem init_valid (e : Env α) (s : Strategy α) (minfo : MarketInfo α)
    (price assets currency : α) (hsolver : SolverPositive e) (hprice : 0 < price) :
    ∃ s1, init e s minfo price assets currency = .ok s1 ∧
      isValid s1 = true ∧ 0 < s1.state.k ∧ 0 < s1.state.p := by
  have hk : 0 < find_k_from_pos_cfg e s.cfg price assets := by
    unfold find_k_from_pos_cfg find_k_from_pos
    split_ifs
    · exact hprice
    · cases hroot : e.find_root_pos price assets
          (fun k => fnx e.pow s.cfg.p s.cfg.w k s.cfg.c price - assets) with
      | none => simpa [not_nan] using hprice
      | some x => simpa [not_nan] using hsolver _ _ _ x hroot
  refine ⟨{ cfg := s.cfg
            state := { val := calc_value e s.cfg (find_k_from_pos_cfg e s.cfg price assets) price
                       k := find_k_from_pos_cfg e s.cfg price assets
                       p := price
                       pos := assets } }, ?_, ?_, hk, hprice⟩
  · unfold init
    simp [isValid, hk, hprice]
  · simp [isValid, hk, hprice]

/-- Witness for C10: bootstrapping a fresh engine at the price 10 with `3/4`
held, the solver reporting the exact pivot 20. -/
theorem init_valid_witness :
    SolverPositive (rootEnv 20) ∧ (0 : ℚ) < 10 ∧
      ∃ s1, init (rootEnv 20) freshEngine tenthMarket 10 (3 / 4) 0 = .ok s1 ∧
        isValid s1 = true ∧ 0 < s1.state.k ∧ 0 < s1.state.p :=
  have hs : SolverPositive (rootEnv 20) := by
    intro guess hint f x hx
    simp only [rootEnv, Option.some.injEq] at hx
    rw [← hx]
    norm_num
  ⟨hs, by norm_num,
   init_valid (rootEnv 20) freshEngine tenthMarket 10 (3 / 4) 0 hs (by norm_num)⟩

end LifecycleTheorems

section LaterLifecycleTheorems

variable {α : Type} [LinearOrderedField α]

/-- C11 (init error): `init` raises the initialisation error exactly when the
solved pivot `k = find_k_from_pos(cfg, price, assets)` has `k ≤ 0` or
`price ≤ 0`; otherwise it returns the engine with the receiver's configuration
and the state `(val = value(k, price), k, p = price, pos = assets)`. -/
theorem init_error_iff (e : Env α) (s : Strategy α) (minfo : MarketInfo α)
    (price assets currency : α) :
    ((∃ msg, init e s minfo price assets currency = .error msg) ↔
        (find_k_from_pos_cfg e s.cfg price assets ≤ 0 ∨ price ≤ 0)) ∧
      init e s minfo price assets currency =
        if find_k_from_pos_cfg e s.cfg price assets ≤ 0 ∨ price ≤ 0 then
          .error "Unable to initialize strategy"
        else
          .ok { cfg := s.cfg
                state :=
                  { val := calc_value e s.cfg (find_k_from_pos_cfg e s.cfg price assets) price
                    k := find_k_from_pos_cfg e s.cfg price assets
                    p := price
                    pos := assets } } := by
  have heq : init e s minfo price assets currency =
      if find_k_from_pos_cfg e s.cfg price assets ≤ 0 ∨ price ≤ 0 then
        .error "Unable to initialize strategy"
      else
        .ok { cfg := s.cfg
              state :=
                { val := calc_value e s.cfg (find_k_from_pos_cfg e s.cfg price assets) price
                  k := find_k_from_pos_cfg e s.cfg price assets
                  p := price
                  pos := assets } } := by
    unfold init
    simp only [isValid, gt_iff_lt, Bool.and_eq_false_iff, decide_eq_false_iff_not, not_lt]
  refine ⟨?_, heq⟩
  rw [heq]
  constructor
  · rintro ⟨msg, hmsg⟩
    by_contra hcon
    rw [if_neg hcon] at hmsg
    exact absurd hmsg (by simp)
  · intro h
    exact ⟨_, if_pos h⟩

/-- Witness for C11: a solver reporting the root `-1` makes `init` raise at the
price 10 with `3/4` held. -/
theorem init_error_iff_witness :
    ∃ msg, init (rootEnv (-1)) freshEngine tenthMarket 10 (3 / 4) 0 = .error msg :=
  (init_error_iff (rootEnv (-1)) freshEngine tenthMarket 10 (3 / 4) 0).1.mpr
    (Or.inl (by
      norm_num [find_k_from_pos_cfg, find_k_from_pos, rootEnv, freshEngine, cfg0, not_nan,
        epsilon, abs_of_pos]))

/-- On a valid engine `getNewOrder` runs lines 115-116 of the source directly:
the returned size is `calc_order(new_price, dir) * dir`. -/
theorem getNewOrder_of_valid (e : Env α) (s : Strategy α) (minfo : MarketInfo α)
    (cur_price new_price dir assets currency : α) (rej : Bool) (hv : isValid s = true) :
    getNewOrder e s minfo cur_price new_price dir assets currency rej =
      .ok { alertFlag := 0
            size := ((find_k_rule e s new_price false).pos * dir - s.state.pos * dir) * dir
            alertPolicy := Alert.enabled } := by
  rw [getNewOrder]
  simp [hv, calc_order]

/-- C12, as stated, fails for a direction other than `±1`: on the valid flat
engine, `getNewOrder` towards the price 15 with `dir = 2` returns the size
`35/36`, four times the difference `35/144 - 0` between the rule's target
position and the current position. -/
theorem getNewOrder_size_counterexample :
    isValid flatEngine = true ∧
      getNewOrder (rootEnv 20) flatEngine tenthMarket 20 15 2 0 0 false
        = .ok { alertFlag := 0, size := 35 / 36, alertPolicy := Alert.enabled } ∧
      (find_k_rule (rootEnv 20) flatEngine 15 false).pos - flatEngine.state.pos = 35 / 144 := by
  have hv : isValid flatEngine = true := by norm_num [isValid, flatEngine]
  refine ⟨hv, ?_, ?_⟩
  · rw [getNewOrder_of_valid (rootEnv 20) flatEngine tenthMarket 20 15 2 0 0 false hv]
    norm_num [find_k_rule, rootEnv, flatEngine, cfg0, find_k_cfg, find_k, not_nan,
      epsilon, calc_value, calc_position, integral_fnx, fnx, qpow]
  · norm_num [find_k_rule, rootEnv, flatEngine, cfg0, find_k_cfg, find_k, not_nan,
      epsilon, calc_value, calc_position, integral_fnx, fnx, qpow]

/-- C12 (amended): for a valid engine and a direction `dir = 1` or `dir = -1`,
`getNewOrder` returns `{alertFlag = 0, size, alertPolicy = enabled}` with
`size = r.pos - pos`, where `r = find_k_rule(new_price, alert = false)`. -/
theorem getNewOrder_size (e : Env α) (s : Strategy α) (minfo : MarketInfo α)
    (cur_price new_price dir assets currency : α) (rej : Bool) (hv : isValid s = true)
    (hdir : dir = 1 ∨ dir = -1) :
    getNewOrder e s minfo cur_price new_price dir assets currency rej =
      .ok { alertFlag := 0
            size := (find_k_rule e s new_price false).pos - s.state.pos
            alertPolicy := Alert.enabled } := by
  rw [getNewOrder_of_valid e s minfo cur_price new_price dir assets currency rej hv]
  rcases hdir with h | h
  · subst h
    simp
  · subst h
    simp
    ring

/-- Witness for C12 (amended): a sell-side quote (`dir = -1`) towards 15 on the
flat engine. -/
theorem getNewOrder_size_witness :
    isValid flatEngine = true ∧ ((-1 : ℚ) = 1 ∨ (-1 : ℚ) = -1) ∧
      getNewOrder (rootEnv 20) flatEngine tenthMarket 20 15 (-1) 0 0 false =
        .ok { alertFlag := 0
              size := (find_k_rule (rootEnv 20) flatEngine 15 false).pos - flatEngine.state.pos
              alertPolicy := Alert.enabled } :=
  ⟨by norm_num [isValid, flatEngine], Or.inr rfl,
   getNewOrder_size (rootEnv 20) flatEngine tenthMarket 20 15 (-1) 0 0 false
     (by norm_num [isValid, flatEngine]) (Or.inr rfl)⟩

end LaterLifecycleTheorems

section LaterRuleTheorems

variable {α : Type} [LinearOrderedField α]

/-- C13 (non-convergence fallback): `find_k` and `find_k_from_pos` return the
price argument whenever the root-solver reports failure on their solve, and
return the solver's root whenever the solver is consulted (the target value is
below `epsilon`, resp. the position is at least `epsilon` in size) and reports
one. -/
theorem find_k_fallback (e : Env α) (w c p price val pos : α) :
    (e.find_root_pos price pos (fun k => integral_fnx e.pow p w k c price - val) = none →
        find_k e w c p price val pos = price) ∧
      (∀ x, ¬ val ≥ epsilon →
        e.find_root_pos price pos (fun k => integral_fnx e.pow p w k c price - val) = some x →
        find_k e w c p price val pos = x) ∧
      (e.find_root_pos price pos (fun k => fnx e.pow p w k c price - pos) = none →
        find_k_from_pos e w c p price pos = price) ∧
      (∀ x, ¬ |pos| < epsilon →
        e.find_root_pos price pos (fun k => fnx e.pow p w k c price - pos) = some x →
        find_k_from_pos e w c p price pos = x) := by
  refine ⟨?_, ?_, ?_, ?_⟩
  · intro h
    unfold find_k
    split_ifs
    · rfl
    · rw [h]; rfl
  · intro x hval h
    unfold find_k
    rw [if_neg hval, h]; rfl
  · intro h
    unfold find_k_from_pos
    split_ifs
    · rfl
    · rw [h]; rfl
  · intro x hpos h
    unfold find_k_from_pos
    rw [if_neg hpos, h]; rfl

/-- Witness for C13: a failed solve at the price 15 towards the value `-1`, and
a solve that reports 20. -/
theorem find_k_fallback_witness :
    find_k failEnv 2 16 1 15 (-1) 1 = 15 ∧ find_k (rootEnv 20) 2 16 1 15 (-1) 1 = 20 :=
  ⟨(find_k_fallback failEnv 2 16 1 15 (-1) 1).1 rfl,
   (find_k_fallback (rootEnv 20) 2 16 1 15 (-1) 1).2.1 20
     (by norm_num [epsilon]) rfl⟩

/-- C14 (flat bootstrap): for `price > 0` and `|assets| < 1e-14`, `init` returns
the valid engine with `k = price`, `val = 0`, `p = price`, `pos = assets`, the
same under every root-solver. `std::pow(1, y) = 1` is assumed of the power
function, and the width is off the poles `-1, 0, 1` of the value curve. -/
theorem init_flat (e : Env α) (s : Strategy α) (minfo : MarketInfo α)
    (price assets currency : α) (hpow : ∀ y, e.pow 1 y = 1)
    (_hw0 : s.cfg.w ≠ 0) (_hw1 : s.cfg.w ≠ 1) (_hwm : s.cfg.w ≠ -1)
    (hprice : 0 < price) (hflat : |assets| < epsilon) :
    init e s minfo price assets currency =
        .ok { cfg := s.cfg, state := { val := 0, k := price, p := price, pos := assets } } ∧
      isValid ({ cfg := s.cfg, state := { val := 0, k := price, p := price, pos := assets } }
        : Strategy α) = true ∧
      ∀ solver : α → α → (α → α) → Option α,
        init { e with find_root_pos := solver } s minfo price assets currency =
          init e s minfo price assets currency := by
  have hk : ∀ e1 : Env α, find_k_from_pos_cfg e1 s.cfg price assets = price := by
    intro e1
    unfold find_k_from_pos_cfg find_k_from_pos
    rw [if_pos hflat]
  have hval : calc_value e s.cfg price price = 0 := by
    unfold calc_value integral_fnx
    simp only [div_self hprice.ne', hpow]
    have hz : -2 * price * s.cfg.w + (1 + s.cfg.w) * price * 1 + (s.cfg.w - 1) * price * 1 = 0 := by
      ring
    rw [hz]
    simp
  have hinit : ∀ e1 : Env α, e1.pow = e.pow →
      init e1 s minfo price assets currency =
        .ok { cfg := s.cfg, state := { val := 0, k := price, p := price, pos := assets } } := by
    intro e1 he1
    have hval1 : calc_value e1 s.cfg price price = 0 := by
      rw [← hval]; unfold calc_value; rw [he1]
    unfold init
    simp [hk e1, hval1, isValid, hprice]
  refine ⟨hinit e rfl, by simp [isValid, hprice], ?_⟩
  intro solver
  rw [hinit e rfl, hinit { e with find_root_pos := solver } rfl]

/-- Witness for C14: the example of the specification, `init(100, 0, 1000)` on
a fresh engine. -/
theorem init_flat_witness :
    init failEnv freshEngine tenthMarket 100 0 1000 =
        .ok { cfg := cfg0, state := { val := 0, k := 100, p := 100, pos := 0 } } :=
  (init_flat failEnv freshEngine tenthMarket 100 0 1000
    (by intro y; simp [failEnv, qpow])
    (by norm_num [freshEngine, cfg0]) (by norm_num [freshEngine, cfg0])
    (by norm_num [freshEngine, cfg0]) (by norm_num)
    (by norm_num [epsilon])).1

/-- C16 (hysteresis): with a nonzero position, old and new price not strictly on
opposite sides of the pivot, `alert = false`, `pos * (new_price - p) ≥ 0` and
`val + pos * (new_price - p) ≥ 0`, `find_k_rule` returns the old pivot with the
value and position of its curve at `new_price`, and the result is the same under
every root-solver. -/
theorem find_k_rule_hysteresis (e : Env α) (s : Strategy α) (new_price : α)
    (hpos : s.state.pos ≠ 0)
    (hside : ¬ (s.state.p - s.state.k) * (new_price - s.state.k) < 0)
    (hpnl : 0 ≤ s.state.pos * (new_price - s.state.p))
    (hval : 0 ≤ s.state.val + s.state.pos * (new_price - s.state.p)) :
    find_k_rule e s new_price false =
        { k := s.state.k
          val := calc_value e s.cfg s.state.k new_price
          pos := calc_position e s.cfg s.state.k new_price } ∧
      ∀ solver : α → α → (α → α) → Option α,
        find_k_rule { e with find_root_pos := solver } s new_price false =
          find_k_rule e s new_price false := by
  have h : ∀ e1 : Env α, find_k_rule e1 s new_price false =
      { k := s.state.k
        val := calc_value e1 s.cfg s.state.k new_price
        pos := calc_position e1 s.cfg s.state.k new_price } := by
    intro e1
    unfold find_k_rule
    simp [hside, not_lt.mpr hpnl, not_lt.mpr hval, hpos]
  refine ⟨h e, ?_⟩
  intro solver
  rw [h e, h { e with find_root_pos := solver }]
  rfl

/-- Witness for C16: one unit held with value 1, pivot 20, the price rising from
15 to 17 on the same side of the pivot; the solver would report 30. -/
theorem find_k_rule_hysteresis_witness :
    find_k_rule (rootEnv 30) gainEngine 17 false =
      { k := 20
        val := calc_value (rootEnv 30) cfg0 20 17
        pos := calc_position (rootEnv 30) cfg0 20 17 } :=
  (find_k_rule_hysteresis (rootEnv 30) gainEngine 17
    (by norm_num [gainEngine]) (by norm_num [gainEngine]) (by norm_num [gainEngine])
    (by norm_num [gainEngine])).1

/-- C18 (unreachable-target shortcut): when the move is not a pivot crossing,
`alert` is set or `pos * (new_price - p) < 0`, and the target value
`val + pos * (new_price - p)` is at least `epsilon`, `find_k_rule` returns
`k = new_price` (with the value and position of that curve at `new_price`),
whatever the position and whatever the root-solver. -/
theorem find_k_rule_unreachable_target (e : Env α) (s : Strategy α) (new_price : α)
    (alert : Bool)
    (hside : 0 ≤ (s.state.p - s.state.k) * (new_price - s.state.k))
    (hbranch : alert = true ∨ s.state.pos * (new_price - s.state.p) < 0)
    (htarget : epsilon ≤ s.state.val + s.state.pos * (new_price - s.state.p)) :
    (find_k_rule e s new_price alert).k = new_price ∧
      find_k_rule e s new_price alert =
        { k := new_price
          val := calc_value e s.cfg new_price new_price
          pos := calc_position e s.cfg new_price new_price } ∧
      ∀ solver : α → α → (α → α) → Option α,
        find_k_rule { e with find_root_pos := solver } s new_price alert =
          find_k_rule e s new_price alert := by
  have hk : ∀ e1 : Env α, find_k_cfg e1 s.cfg new_price
      (s.state.val + s.state.pos * (new_price - s.state.p)) s.state.pos = new_price := by
    intro e1
    unfold find_k_cfg find_k
    rw [if_pos htarget]
  have h : ∀ e1 : Env α, find_k_rule e1 s new_price alert =
      { k := new_price
        val := calc_value e1 s.cfg new_price new_price
        pos := calc_position e1 s.cfg new_price new_price } := by
    intro e1
    have hb : s.state.pos * (new_price - s.state.p) < 0 ∨ alert = true := hbranch.symm
    have hsq : ¬ (new_price - s.state.k) * (new_price - s.state.k) < 0 :=
      not_lt.mpr (mul_self_nonneg _)
    unfold find_k_rule
    simp [not_lt.mpr hside, hb, hk e1, hsq]
  refine ⟨by rw [h e], h e, ?_⟩
  intro solver
  rw [h e, h { e with find_root_pos := solver }]
  rfl

/-- Witness for C18: a re-quote (`alert = true`) at 17 on the engine holding one
unit with value 1; the target is `1 + 1 * (17 - 15) = 3`. -/
theorem find_k_rule_unreachable_target_witness :
    (find_k_rule (rootEnv 30) gainEngine 17 true).k = 17 :=
  (find_k_rule_unreachable_target (rootEnv 30) gainEngine 17 true
    (by norm_num [gainEngine]) (Or.inl rfl) (by norm_num [gainEngine, epsilon])).1

/-- C15, as stated, fails when the last price is off the pivot: on the flat
engine with pivot 20, last price 10 and the on-curve value `-17/6`, moving to
15, the yield of the code is `value(10, 15) = -11/6` (the curve pivoted at the
old price), not `value(20, 15) - value(20, 10) = 109/48`. The solve of the rule
is therefore not the one towards `val + m * 109/48 = -9/16`, which the checking
solver answers with the pivot 20: the rule ends on the fallback 15. -/
theorem find_k_rule_yield_counterexample :
    isValid driftedEngine = true ∧
      yield_spec (probeEnv 20) driftedEngine 15 = 109 / 48 ∧
      calc_value (probeEnv 20) driftedEngine.cfg driftedEngine.state.p 15 = -11 / 6 ∧
      find_k_cfg (probeEnv 20) driftedEngine.cfg 15
          (driftedEngine.state.val + driftedEngine.state.pos * (15 - driftedEngine.state.p)
            + driftedEngine.cfg.initial_yield_mult * yield_spec (probeEnv 20) driftedEngine 15)
          (driftedEngine.state.p - 15) = 20 ∧
      (find_k_rule (probeEnv 20) driftedEngine 15 false).k = 15 := by
  refine ⟨?_, ?_, ?_, ?_, ?_⟩ <;>
    norm_num [isValid, yield_spec, find_k_rule, probeEnv, driftedEngine, cfg0, find_k_cfg,
      find_k, not_nan, epsilon, calc_value, calc_position, integral_fnx, fnx, qpow]

/-- C15 (amended): in `find_k_rule` the yield is `value(p, new_price)`, the value
curve pivoted at the old price `p` and evaluated at the new price. In branch 4b
(no crossing, `alert = false`, `pos * (new_price - p) ≥ 0`, and
`val + pos * (new_price - p) < 0` or a flat position) the pivot is the result of
`find_k` towards the target `val + pos * (new_price - p) + m * value(p,
new_price)`, with `m = yield_mult` when `pos ≠ 0` and `initial_yield_mult` when
`pos = 0`, the hint being `pos`, or `p - new_price` when flat, subject to the
anti-oscillation clamp. -/
theorem find_k_rule_yield_target (e : Env α) (s : Strategy α) (new_price : α)
    (hside : ¬ (s.state.p - s.state.k) * (new_price - s.state.k) < 0)
    (hpnl : ¬ s.state.pos * (new_price - s.state.p) < 0)
    (hneed : s.state.val + s.state.pos * (new_price - s.state.p) < 0 ∨ s.state.pos = 0) :
    (find_k_rule e s new_price false).k =
      (let m := if s.state.pos ≠ 0 then s.cfg.yield_mult else s.cfg.initial_yield_mult
       let target := s.state.val + s.state.pos * (new_price - s.state.p)
         + m * calc_value e s.cfg s.state.p new_price
       let t := find_k_cfg e s.cfg new_price target
         (if s.state.pos ≠ 0 then s.state.pos else s.state.p - new_price)
       if s.state.pos ≠ 0 ∧ (t - s.state.k) * (new_price - s.state.k) < 0 then s.state.k
       else t) := by
  unfold find_k_rule
  simp only [if_neg hside, hpnl, false_or, Bool.false_eq_true, if_false, if_pos hneed,
    mul_comm (calc_value e s.cfg s.state.p new_price)]

/-- Witness for C15 (amended): the flat engine with pivot 20 and last price 10,
moving to 15. -/
theorem find_k_rule_yield_target_witness :
    (find_k_rule (probeEnv 20) driftedEngine 15 false).k =
      (let m := if driftedEngine.state.pos ≠ 0 then driftedEngine.cfg.yield_mult
                else driftedEngine.cfg.initial_yield_mult
       let target := driftedEngine.state.val
         + driftedEngine.state.pos * (15 - driftedEngine.state.p)
         + m * calc_value (probeEnv 20) driftedEngine.cfg driftedEngine.state.p 15
       let t := find_k_cfg (probeEnv 20) driftedEngine.cfg 15 target
         (if driftedEngine.state.pos ≠ 0 then driftedEngine.state.pos
          else driftedEngine.state.p - 15)
       if driftedEngine.state.pos ≠ 0 ∧
           (t - driftedEngine.state.k) * (15 - driftedEngine.state.k) < 0 then
         driftedEngine.state.k
       else t) :=
  find_k_rule_yield_target (probeEnv 20) driftedEngine 15
    (by norm_num [driftedEngine]) (by norm_num [driftedEngine])
    (Or.inr (by norm_num [driftedEngine]))

end LaterRuleTheorems

section RequoteTheorems

variable {α : Type} [LinearOrderedField α]

/-- With a root-solver that only reports positive roots, `find_k` at a positive
price is positive: it is the price, the fallback price, or a reported root. -/
theorem find_k_cfg_pos (e : Env α) (cfg : Config α) (price val pos : α)
    (hsolver : SolverPositive e) (hprice : 0 < price) :
    0 < find_k_cfg e cfg price val pos := by
  unfold find_k_cfg find_k
  split_ifs
  · exact hprice
  · cases hroot : e.find_root_pos price pos
        (fun k => integral_fnx e.pow cfg.p cfg.w k cfg.c price - val) with
    | none => simpa [not_nan] using hprice
    | some x => simpa [not_nan] using hsolver _ _ _ x hroot

/-- With a root-solver that only reports positive roots, the pivot
`find_k_rule` returns from a positive pivot at a positive price is positive. -/
theorem find_k_rule_k_pos (e : Env α) (s : Strategy α) (new_price : α) (alert : Bool)
    (hsolver : SolverPositive e) (hk : 0 < s.state.k) (hprice : 0 < new_price) :
    0 < (find_k_rule e s new_price alert).k := by
  unfold find_k_rule
  simp only []
  split_ifs <;>
    first
    | exact hprice
    | exact hk
    | exact find_k_cfg_pos e s.cfg new_price _ _ hsolver hprice

/-- C20 (re-quote preserves validity and curve consistency): for a valid state
(`k > 0`, `p > 0`), `tradePrice > 0` and `tradeSize = 0`, with a root-solver
that reports only positive roots or failure, `onTrade` returns a successor that
is valid (`k' > 0`, `p' > 0`), has `p' = tradePrice`, `pos' = assetsLeft` after
the dust snap, and `val' = integral_fnx(cfg.p, cfg.w, k', cfg.c, p')`. -/
theorem onTrade_requote_valid (e : Env α) (s : Strategy α) (minfo : MarketInfo α)
    (tradePrice assetsLeft currencyLeft : α) (hsolver : SolverPositive e)
    (hk : 0 < s.state.k) (hp : 0 < s.state.p) (hprice : 0 < tradePrice) :
    ∃ (res : OnTradeResult α) (s1 : Strategy α),
      onTrade e s minfo tradePrice 0 assetsLeft currencyLeft = .ok (res, s1) ∧
        0 < s1.state.k ∧ 0 < s1.state.p ∧ isValid s1 = true ∧
        s1.state.p = tradePrice ∧
        s1.state.pos = (if |assetsLeft| < minfo.calcMinSize tradePrice then 0 else assetsLeft) ∧
        s1.state.val = integral_fnx e.pow s1.cfg.p s1.cfg.w s1.state.k s1.cfg.c s1.state.p := by
  have hv : isValid s = true := by simp [isValid, hk, hp]
  have hk1 : 0 < (find_k_rule e s tradePrice true).k :=
    find_k_rule_k_pos e s tradePrice true hsolver hk hprice
  refine ⟨_, _, onTrade_of_valid e s minfo tradePrice 0 assetsLeft currencyLeft hv,
    ?_, ?_, ?_, ?_, ?_, ?_⟩
  · simpa using hk1
  · simpa using hprice
  · simpa [isValid, hprice] using hk1
  · simp
  · rfl
  · simp [find_k_rule, calc_value]

/-- Witness for C20: a re-quote at 17 on the engine holding one unit (pivot 20,
last price 15), the solver reporting 30. -/
theorem onTrade_requote_valid_witness :
    SolverPositive (rootEnv 30) ∧
      ∃ (res : OnTradeResult ℚ) (s1 : Strategy ℚ),
        onTrade (rootEnv 30) heldEngine tenthMarket 17 0 1 0 = .ok (res, s1) ∧
          0 < s1.state.k ∧ 0 < s1.state.p ∧ isValid s1 = true ∧
          s1.state.p = 17 ∧
          s1.state.pos = (if |(1 : ℚ)| < tenthMarket.calcMinSize 17 then 0 else 1) ∧
          s1.state.val =
            integral_fnx (rootEnv 30).pow s1.cfg.p s1.cfg.w s1.state.k s1.cfg.c s1.state.p :=
  have hs : SolverPositive (rootEnv 30) := by
    intro guess hint f x hx
    simp only [rootEnv, Option.some.injEq] at hx
    rw [← hx]
    norm_num
  ⟨hs, onTrade_requote_valid (rootEnv 30) heldEngine tenthMarket 17 1 0 hs
    (by norm_num [heldEngine]) (by norm_num [heldEngine]) (by norm_num)⟩

end RequoteTheorems

section CurveShapeTheorems

/-- The bracket of the value curve: for `w > 1` and every real `L`,
`(1 + w) * exp (L * (1 - w)) + (w - 1) * exp (L * (1 + w)) ≥ 2 * w`, strictly
unless `L = 0`. -/
theorem two_mul_lt_exp_bracket (w L : ℝ) (hw : 1 < w) (hL : L ≠ 0) :
    2 * w < (1 + w) * Real.exp (L * (1 - w)) + (w - 1) * Real.exp (L * (1 + w)) := by
  have hw0 : 0 < w := by linarith
  have hne : L * (1 - w) ≠ L * (1 + w) := by
    intro h
    have : L * (2 * w) = 0 := by linarith
    rcases mul_eq_zero.mp this with h1 | h1
    · exact hL h1
    · linarith
  have ha : 0 < (1 + w) / (2 * w) := by positivity
  have hb : 0 < (w - 1) / (2 * w) := div_pos (by linarith) (by positivity)
  have hab : (1 + w) / (2 * w) + (w - 1) / (2 * w) = 1 := by field_simp; ring
  have h := strictConvexOn_exp.2 (Set.mem_univ (L * (1 - w))) (Set.mem_univ (L * (1 + w)))
    hne ha hb hab
  have hz : (1 + w) / (2 * w) * (L * (1 - w)) + (w - 1) / (2 * w) * (L * (1 + w)) = 0 := by
    field_simp; ring
  simp only [smul_eq_mul] at h
  rw [hz, Real.exp_zero] at h
  have h2 : 2 * w * 1 < 2 * w * ((1 + w) / (2 * w) * Real.exp (L * (1 - w)) +
      (w - 1) / (2 * w) * Real.exp (L * (1 + w))) := mul_lt_mul_of_pos_left h (by positivity)
  have h3 : 2 * w * ((1 + w) / (2 * w) * Real.exp (L * (1 - w)) +
      (w - 1) / (2 * w) * Real.exp (L * (1 + w)))
      = (1 + w) * Real.exp (L * (1 - w)) + (w - 1) * Real.exp (L * (1 + w)) := by
    field_simp
  linarith

/-- The numerator of the value curve in exponential form. -/
theorem integral_fnx_eq_exp (p w k c x : ℝ) (hk : 0 < k) (hx : 0 < x) :
    integral_fnx Real.rpow p w k c x =
      -(c * p * (k * (-2 * w + (1 + w) * Real.exp (Real.log (x / k) * (1 - w))
          + (w - 1) * Real.exp (Real.log (x / k) * (1 + w))))
        / (2 * k * (w - 1) * w * (w + 1))) := by
  have ht : 0 < x / k := div_pos hx hk
  have hxe : x = k * Real.exp (Real.log (x / k)) := by
    rw [Real.exp_log ht]; field_simp
  have e1 : x * (x / k) ^ (-w) = k * Real.exp (Real.log (x / k) * (1 - w)) := by
    rw [Real.rpow_def_of_pos ht]
    nth_rewrite 1 [hxe]
    rw [mul_assoc, ← Real.exp_add]
    congr 2; ring
  have e2 : x * (x / k) ^ w = k * Real.exp (Real.log (x / k) * (1 + w)) := by
    rw [Real.rpow_def_of_pos ht]
    nth_rewrite 1 [hxe]
    rw [mul_assoc, ← Real.exp_add]
    congr 2; ring
  unfold integral_fnx
  simp only [Real.rpow_eq_pow]
  rw [mul_assoc (1 + w), e1, mul_assoc (w - 1), e2]
  congr 2
  ring

/-- C17 (the value curve is non-positive with its maximum at the pivot): over
the reals, for `w > 1`, `k > 0`, `x > 0` and `c * p > 0`,
`integral_fnx(p, w, k, c, x) ≤ 0`, with equality if and only if `x = k`. -/
theorem integral_fnx_nonpos (p w k c x : ℝ) (hw : 1 < w) (hk : 0 < k) (hx : 0 < x)
    (hcp : 0 < c * p) :
    integral_fnx Real.rpow p w k c x ≤ 0 ∧ (integral_fnx Real.rpow p w k c x = 0 ↔ x = k) := by
  have ht : 0 < x / k := div_pos hx hk
  have hD : 0 < 2 * k * (w - 1) * w * (w + 1) := by
    have : 0 < w - 1 := by linarith
    positivity
  have hlt : x ≠ k → integral_fnx Real.rpow p w k c x < 0 := by
    intro hxk
    have hL : Real.log (x / k) ≠ 0 := by
      intro h
      have h1 : x / k = 1 := Real.eq_one_of_pos_of_log_eq_zero ht h
      exact hxk ((div_eq_one_iff_eq hk.ne').mp h1)
    have hG := two_mul_lt_exp_bracket w (Real.log (x / k)) hw hL
    rw [integral_fnx_eq_exp p w k c x hk hx, neg_lt_zero]
    apply div_pos _ hD
    apply mul_pos hcp
    apply mul_pos hk
    linarith
  have heq : integral_fnx Real.rpow p w k c k = 0 := by
    rw [integral_fnx_eq_exp p w k c k hk hk]
    rw [div_self hk.ne', Real.log_one]
    simp only [zero_mul, Real.exp_zero]
    have hz : -2 * w + (1 + w) * 1 + (w - 1) * 1 = 0 := by ring
    rw [hz]
    simp
  constructor
  · by_cases hxk : x = k
    · rw [hxk, heq]
    · exact (hlt hxk).le
  · constructor
    · intro h
      by_contra hxk
      exact (hlt hxk).ne h
    · intro h
      rw [h, heq]

/-- Witness for C17: width 2, pivot 20, scale 16, at the price 15. -/
theorem integral_fnx_nonpos_witness :
    integral_fnx Real.rpow 1 2 20 16 15 ≤ 0 ∧
      (integral_fnx Real.rpow 1 2 20 16 15 = 0 ↔ (15 : ℝ) = 20) :=
  integral_fnx_nonpos 1 2 20 16 15 (by norm_num) (by norm_num) (by norm_num) (by norm_num)

/-- The radicand of `invert_fnx` is `(c p)² + (k y w)²`; its root exceeds
`k y w`. -/
theorem invert_fnx_base_pos (p w k c y : ℝ) (hcp : 0 < c * p) :
    0 < (Real.sqrt (c * c * p * p + k * k * y * y * w * w) - k * y * w) / (c * p) := by
  have hr : c * c * p * p + k * k * y * y * w * w = (c * p) * (c * p) + (k * y * w) * (k * y * w) := by
    ring
  have hr0 : 0 ≤ c * c * p * p + k * k * y * y * w * w := by
    rw [hr]; exact add_nonneg (mul_self_nonneg _) (mul_self_nonneg _)
  have hS0 := Real.sqrt_nonneg (c * c * p * p + k * k * y * y * w * w)
  have hS2 := Real.mul_self_sqrt hr0
  apply div_pos _ hcp
  by_contra hcon
  have hle : Real.sqrt (c * c * p * p + k * k * y * y * w * w) ≤ k * y * w := by linarith
  have := mul_self_le_mul_self hS0 hle
  nlinarith [mul_pos hcp hcp]

/-- For `k > 0`, `w > 0`, `c * p > 0` the price `invert_fnx` returns for a
position `y` is positive and `fnx` holds `y` there. -/
theorem fnx_invert_fnx (p w k c y : ℝ) (hk : 0 < k) (hw : 0 < w) (hcp : 0 < c * p) :
    0 < invert_fnx Real.rpow Real.sqrt p w k c y ∧
      fnx Real.rpow p w k c (invert_fnx Real.rpow Real.sqrt p w k c y) = y := by
  have hu := invert_fnx_base_pos p w k c y hcp
  have hr : c * c * p * p + k * k * y * y * w * w = (c * p) * (c * p) + (k * y * w) * (k * y * w) := by
    ring
  have hr0 : 0 ≤ c * c * p * p + k * k * y * y * w * w := by
    rw [hr]; exact add_nonneg (mul_self_nonneg _) (mul_self_nonneg _)
  have hS2 := Real.mul_self_sqrt hr0
  set S := Real.sqrt (c * c * p * p + k * k * y * y * w * w) with hS
  set u := (S - k * y * w) / (c * p) with hudef
  have hinv : invert_fnx Real.rpow Real.sqrt p w k c y = k * u ^ (1 / w) := rfl
  have hpow : 0 < u ^ (1 / w) := Real.rpow_pos_of_pos hu _
  refine ⟨by rw [hinv]; exact mul_pos hk hpow, ?_⟩
  have hxk : k * u ^ (1 / w) / k = u ^ (1 / w) := by field_simp
  have h1 : (u ^ (1 / w)) ^ w = u := by
    rw [← Real.rpow_mul hu.le, one_div, inv_mul_cancel₀ hw.ne', Real.rpow_one]
  have h2 : (u ^ (1 / w)) ^ (-w) = u⁻¹ := by
    rw [Real.rpow_neg hpow.le, h1]
  rw [hinv]
  unfold fnx
  simp only [Real.rpow_eq_pow, hxk, h1, h2]
  have hcp' : c * p ≠ 0 := hcp.ne'
  have hc : c ≠ 0 := left_ne_zero_of_mul hcp'
  have hp : p ≠ 0 := right_ne_zero_of_mul hcp'
  have hnum : S - k * y * w ≠ 0 := by
    intro h
    rw [hudef, h, zero_div] at hu
    exact lt_irrefl _ hu
  have hquad : (S - k * y * w) * (S + k * y * w) = (c * p) * (c * p) := by
    have : (S - k * y * w) * (S + k * y * w) = S * S - (k * y * w) * (k * y * w) := by ring
    rw [this, hS2, hr]; ring
  have huinv : u⁻¹ = (S + k * y * w) / (c * p) := by
    rw [hudef, inv_div, div_eq_div_iff hnum hcp']
    linarith [hquad]
  rw [huinv, hudef]
  field_simp
  ring

/-- For `k > 0`, `w > 0`, `c * p > 0` and a price `x > 0`, `invert_fnx` recovers
`x` from the position `fnx` holds at `x`. -/
theorem invert_fnx_fnx (p w k c x : ℝ) (hk : 0 < k) (hw : 0 < w) (hcp : 0 < c * p)
    (hx : 0 < x) :
    invert_fnx Real.rpow Real.sqrt p w k c (fnx Real.rpow p w k c x) = x := by
  have ht : 0 < x / k := div_pos hx hk
  have hv : 0 < (x / k) ^ w := Real.rpow_pos_of_pos ht w
  have hcp' : c * p ≠ 0 := hcp.ne'
  have hc : c ≠ 0 := left_ne_zero_of_mul hcp'
  have hp : p ≠ 0 := right_ne_zero_of_mul hcp'
  have hfn : fnx Real.rpow p w k c x
      = (w * p * c) / (2 * k * w * w) * (((x / k) ^ w)⁻¹ - (x / k) ^ w) := by
    unfold fnx
    simp only [Real.rpow_eq_pow, Real.rpow_neg ht.le]
  set v := (x / k) ^ w with hvdef
  have hrad : c * c * p * p + k * k * fnx Real.rpow p w k c x * fnx Real.rpow p w k c x * w * w
      = (c * p * (v⁻¹ + v) / 2) ^ 2 := by
    rw [hfn]
    field_simp
    ring
  have hsqrt : Real.sqrt (c * c * p * p
      + k * k * fnx Real.rpow p w k c x * fnx Real.rpow p w k c x * w * w)
      = c * p * (v⁻¹ + v) / 2 := by
    rw [hrad]
    exact Real.sqrt_sq (by positivity)
  have hbase : (c * p * (v⁻¹ + v) / 2 - k * fnx Real.rpow p w k c x * w) / (c * p) = v := by
    rw [hfn]
    field_simp
    ring
  unfold invert_fnx
  simp only [Real.rpow_eq_pow]
  rw [hsqrt, hbase, hvdef, ← Real.rpow_mul ht.le, one_div, mul_inv_cancel₀ hw.ne', Real.rpow_one]
  field_simp

/-- C19 (`invert_fnx` inverts the position function in its price argument): over
the reals, for `k > 0`, `w > 0` and `c * p > 0`, for every `y` the price
`invert_fnx(p, w, k, c, y)` is positive and
`fnx(p, w, k, c, invert_fnx(p, w, k, c, y)) = y`; and for every `x > 0`,
`invert_fnx(p, w, k, c, fnx(p, w, k, c, x)) = x`. -/
theorem invert_fnx_inverse (p w k c : ℝ) (hk : 0 < k) (hw : 0 < w) (hcp : 0 < c * p) :
    (∀ y : ℝ, 0 < invert_fnx Real.rpow Real.sqrt p w k c y ∧
        fnx Real.rpow p w k c (invert_fnx Real.rpow Real.sqrt p w k c y) = y) ∧
      ∀ x : ℝ, 0 < x →
        invert_fnx Real.rpow Real.sqrt p w k c (fnx Real.rpow p w k c x) = x :=
  ⟨fun y => fnx_invert_fnx p w k c y hk hw hcp,
   fun x hx => invert_fnx_fnx p w k c x hk hw hcp hx⟩

/-- Witness for C19: width 2, pivot 20, scale 16. -/
theorem invert_fnx_inverse_witness :
    (∀ y : ℝ, 0 < invert_fnx Real.rpow Real.sqrt 1 2 20 16 y ∧
        fnx Real.rpow 1 2 20 16 (invert_fnx Real.rpow Real.sqrt 1 2 20 16 y) = y) ∧
      ∀ x : ℝ, 0 < x →
        invert_fnx Real.rpow Real.sqrt 1 2 20 16 (fnx Real.rpow 1 2 20 16 x) = x :=
  invert_fnx_inverse 1 2 20 16 (by norm_num) (by norm_num) (by norm_num)

end CurveShapeTheorems

end PowerN
